import Mathlib

/-!
Verification of the admin-panel CRM front end's projection and permission
logic against its specification.

The development shallowly embeds the relevant TypeScript modules:

* `src/unnamed/part_010` (UserContext): `hasPermission`, `isSuperAdmin`;
* `src/App.tsx`: the route-level `PermissionGuard` and the tenant status
  projector inside `loadTenants`;
* `src/pages/Reports.tsx`: `buildMonthSequence`, `getRangeBounds`,
  `parseDateValue`'s result shape, and the MRR bucketing of
  `loadRevenueData`;
* `src/pages/PaymentGateways.tsx`: `performToggle`.

Modelling conventions, used throughout and noted locally as well:

* JavaScript date *strings* that are only ever compared (subscription
  `start_date` / `end_date`, `created_at` in the tenant projector) are
  represented by their epoch-millisecond value as an `Int`; `new Date(a) >
  new Date(b)` becomes `a > b`.  Records are taken to carry well-formed
  (parseable, non-empty) date strings, so JavaScript truthiness tests on
  them are always true and `NaN` comparisons do not arise.
* In the Reports module the code inspects calendar components
  (`getFullYear`, `getMonth`, `setHours`), so there dates are represented
  by a calendar structure `DateTime` (UTC year / 0-based month /
  day-of-month / millisecond-of-day); chronological comparison of `Date`
  objects becomes comparison of the order-preserving key `DateTime.toKey`.
  A missing or unparseable date string is `none` (the code treats both the
  same way in every spot we embed).
* Monetary amounts are exact integers (`Int`): the embedding models the
  intended exact arithmetic of `parseFloat` sums.
* `Map` objects keyed by company id become functions `Int → Option _`.
* Only the record fields the verified logic reads are embedded.
-/

/-! ## Permission resolver (src/unnamed/part_010, UserContext) -/

/-- The fixed capability set: the keys of `LimitedAdminPermissions`. -/
inductive Capability where
  | can_view_dashboard
  | can_manage_tenants
  | can_manage_subscriptions
  | can_manage_payment_gateways
  | can_view_reports
  | can_manage_communication
  | can_manage_settings
  | can_manage_limited_admins
deriving DecidableEq

/-- The eight boolean capability flags of a limited-admin profile. -/
structure LimitedAdminPermissions where
  can_view_dashboard : Bool
  can_manage_tenants : Bool
  can_manage_subscriptions : Bool
  can_manage_payment_gateways : Bool
  can_view_reports : Bool
  can_manage_communication : Bool
  can_manage_settings : Bool
  can_manage_limited_admins : Bool
deriving DecidableEq

/-- `permissions[permission]`: the typed member lookup on the flags object. -/
def permGet (ps : LimitedAdminPermissions) : Capability → Bool
  | .can_view_dashboard => ps.can_view_dashboard
  | .can_manage_tenants => ps.can_manage_tenants
  | .can_manage_subscriptions => ps.can_manage_subscriptions
  | .can_manage_payment_gateways => ps.can_manage_payment_gateways
  | .can_view_reports => ps.can_view_reports
  | .can_manage_communication => ps.can_manage_communication
  | .can_manage_settings => ps.can_manage_settings
  | .can_manage_limited_admins => ps.can_manage_limited_admins

/-- `LimitedAdmin` as carried on the current user: activity flag plus the
permissions object (always present when the profile is present). -/
structure LimitedAdminRec where
  id : Int
  is_active : Bool
  permissions : LimitedAdminPermissions
deriving DecidableEq

/-- The current user, restricted to the fields the resolver reads:
`is_superuser` and the optional `limited_admin` profile. -/
structure UserRec where
  id : Int
  is_superuser : Bool
  limited_admin : Option LimitedAdminRec
deriving DecidableEq

/-- `hasPermission` from UserContext: no user → false; superuser → true;
else the named flag on `limited_admin.permissions` when the profile is
present (`perms[permission] || false`), else false. -/
def hasPermission (user : Option UserRec) (p : Capability) : Bool :=
  match user with
  | none => false
  | some u =>
    if u.is_superuser then true
    else
      match u.limited_admin with
      | some la => permGet la.permissions p
      | none => false

/-- `isSuperAdmin` from UserContext: `user?.is_superuser || false`. -/
def isSuperAdmin (user : Option UserRec) : Bool :=
  match user with
  | none => false
  | some u => u.is_superuser

/-! ## Route-level permission guard (src/App.tsx, `PermissionGuard`) -/

/-- What the guard renders: the blocking loader, the guarded page, or a
redirect to `/dashboard`.  The component has no other output (in
particular no 403 page). -/
inductive GuardRender where
  | loader
  | page
  | redirectDashboard
deriving DecidableEq

/-- The `PermissionGuard` component defined in `App.tsx`:
`loading → FullPageLoader`; `isSuperAdmin() || hasPermission(p) →
children`; otherwise `Navigate to /dashboard`. -/
def permissionGuard (loading : Bool) (user : Option UserRec) (p : Capability) :
    GuardRender :=
  if loading then .loader
  else if isSuperAdmin user || hasPermission user p then .page
  else .redirectDashboard

/-! ## Tenant status projector (src/App.tsx, `loadTenants`) -/

/-- Tenant lifecycle status enum (`src/unnamed/part_010`).  `Trial` exists
in the enum but is never assigned by the projector. -/
inductive TenantStatus where
  | Active
  | Trial
  | Expired
  | Deactivated
deriving DecidableEq

/-- A subscription record, with date strings as epoch-ms integers. -/
structure SubRec where
  company : Int
  is_active : Bool
  start_date : Int
  end_date : Int
deriving DecidableEq

/-- A company record; `created_at` may be absent (`none`). -/
structure CompanyRec where
  id : Int
  created_at : Option Int
deriving DecidableEq

/-- The projected tenant view model, restricted to the derived fields the
specification talks about.  `startDate`/`endDate` hold UTC day indices
(the embedding of `toISOString().split('T')[0]`). -/
structure TenantVM where
  id : Int
  status : TenantStatus
  startDate : Option Int
  endDate : Option Int
deriving DecidableEq

/-- `new Date(sub.end_date) > new Date(map.get(sub.company)?.end_date || 0)`
guarded by `!map.has(sub.company)`: true when no record is stored yet, or
when the candidate's `end_date` is strictly later. -/
def betterB (s : SubRec) (prev : Option SubRec) : Bool :=
  match prev with
  | none => true
  | some p => decide (p.end_date < s.end_date)

/-- Point update of the company-id → subscription map (`Map.set`). -/
def mapSet (m : Int → Option SubRec) (s : SubRec) : Int → Option SubRec :=
  fun c => if c = s.company then some s else m c

/-- The `subscriptions.forEach` loop of `loadTenants`, started from an
arbitrary map. -/
def buildSubMapAux : (Int → Option SubRec) → List SubRec → (Int → Option SubRec)
  | m, [] => m
  | m, s :: l =>
    buildSubMapAux (if s.is_active && betterB s (m s.company) then mapSet m s else m) l

/-- The company-id → best-active-subscription map built by `loadTenants`. -/
def buildSubMap (subs : List SubRec) : Int → Option SubRec :=
  buildSubMapAux (fun _ => none) subs

/-- `toISOString().split('T')[0]` identifies all instants of one UTC day:
embed it as the floor day index of the epoch-ms timestamp. -/
def isoDay (ts : Int) : Int := Int.fdiv ts 86400000

/-- The per-company body of the `companies.map` in `loadTenants`,
projecting one company to its tenant view model given the subscription
map and the current time `now`. -/
def projectTenant (now : Int) (subMap : Int → Option SubRec) (c : CompanyRec) :
    TenantVM :=
  let sub := subMap c.id
  let endDate : Option Int :=
    match sub with
    | some s => some (isoDay s.end_date)
    | none => none
  let startDate : Option Int :=
    match sub with
    | some s => some (isoDay s.start_date)
    | none =>
      match c.created_at with
      | some t => some (isoDay t)
      | none => none
  let status : TenantStatus :=
    match sub with
    | some s =>
      if s.is_active then
        if s.end_date < now then .Expired else .Active
      else .Deactivated
    | none => .Deactivated
  ⟨c.id, status, startDate, endDate⟩

/-- Modelled from the spec's words (§8, first property): among a list of
candidate subscriptions, "the single subscription with the maximum
`end_date`; if two are exactly equal, the first encountered in input
order wins" — the first element whose `end_date` is ≥ every element's. -/
def specBest (l : List SubRec) : Option SubRec :=
  l.find? (fun s => l.all (fun t => decide (t.end_date ≤ s.end_date)))

/-- The `forEach` body folded over a plain list: keep the accumulator
unless the candidate is strictly better. -/
def foldBest : Option SubRec → List SubRec → Option SubRec
  | b, [] => b
  | b, s :: l => foldBest (if betterB s b then some s else b) l

/-! ## Billing aggregator (src/pages/Reports.tsx) -/

/-- A UTC calendar instant: year, 0-based month (`getMonth`), day of month
and millisecond of day.  The order of the corresponding `Date` values is
the order of `toKey` below. -/
structure DateTime where
  year : Int
  month : Nat
  day : Nat
  ms : Nat
deriving DecidableEq

/-- Calendar well-formedness: the ranges JavaScript `Date` components
inhabit.  Needed only where day-level and month-level comparisons are
related. -/
def DateTime.Wf (d : DateTime) : Prop :=
  d.month < 12 ∧ 1 ≤ d.day ∧ d.day ≤ 31 ∧ d.ms < 86400000

instance (d : DateTime) : Decidable d.Wf := by
  unfold DateTime.Wf; infer_instance

/-- Order-preserving key of a well-formed `DateTime`: comparing keys is
comparing the underlying `Date` timestamps. -/
def DateTime.toKey (d : DateTime) : Int :=
  ((d.year * 12 + d.month) * 32 + d.day) * 86400000 + d.ms

/-- `new Date(y, m, 1)` normalization keeps only the month: its index. -/
def monthIdx (d : DateTime) : Int := d.year * 12 + d.month

/-- The Reports date-range filter after `parseDateValue`: `none` stands
for an absent or unparseable bound (the code treats both as null). -/
structure Filters where
  fromDate : Option DateTime
  toDate : Option DateTime
deriving DecidableEq

/-- The `while (cursor <= end && guard < 60)` loop of `buildMonthSequence`
over month indices, with the 60-step guard as fuel. -/
def monthLoop : Int → Int → Nat → List Int
  | _, _, 0 => []
  | s, e, fuel + 1 => if s ≤ e then s :: monthLoop (s + 1) e fuel else []

/-- `buildMonthSequence`: effective month range (defaulting to the
trailing 12 months ending at `now`), degenerate single-bucket fallback
when start > end, the guarded cursor loop, the (dead) empty-sequence
fallback, and the keep-the-last-12 cap. -/
def buildMonthSequence (filters : Filters) (now : DateTime) : List Int :=
  let s0 : Int :=
    match filters.fromDate with
    | some d => monthIdx d
    | none => monthIdx now - 11
  let e0 : Int :=
    match filters.toDate with
    | some d => monthIdx d
    | none => monthIdx now
  if s0 > e0 then [s0]
  else
    let seq := monthLoop s0 e0 60
    let seq := if seq.isEmpty then [e0] else seq
    if seq.length > 12 then seq.drop (seq.length - 12) else seq

/-- `getRangeBounds`: start-of-day lower bound, end-of-day upper bound. -/
def getRangeBounds (filters : Filters) : Option DateTime × Option DateTime :=
  (filters.fromDate.map (fun d => { d with ms := 0 }),
   filters.toDate.map (fun d => { d with ms := 86399999 }))

/-- `isWithinRange` from `loadRevenueData`: a missing or unparseable
`created_at` passes; otherwise the date must not fall strictly before the
lower bound nor strictly after the upper bound. -/
def isWithinRange (bounds : Option DateTime × Option DateTime)
    (v : Option DateTime) : Bool :=
  match v with
  | none => true
  | some d =>
    (match bounds.1 with
     | none => true
     | some s => !decide (d.toKey < s.toKey)) &&
    (match bounds.2 with
     | none => true
     | some e => !decide (e.toKey < d.toKey))

/-- A payment as read by the revenue aggregator: raw backend status
string, `created_at` (`none` when missing or unparseable) and its exact
amount. -/
structure PaymentRec where
  payment_status : String
  created_at : Option DateTime
  amount : Int
deriving DecidableEq

/-- The aggregator's own success test:
`payment_status === 'successful' || payment_status === 'Success'`. -/
def isSuccessfulR (p : PaymentRec) : Bool :=
  p.payment_status == "successful" || p.payment_status == "Success"

/-- `revenueByMonth.find(m => m.key === key)` followed by
`monthData.MRR += amount`: add to the first bucket with the given key,
leave the list unchanged when no bucket matches. -/
def updateFirst : List (Int × Int) → Int → Int → List (Int × Int)
  | [], _, _ => []
  | (k, v) :: rest, key, amt =>
    if k = key then (k, v + amt) :: rest else (k, v) :: updateFirst rest key amt

/-- The `payments.forEach` body of `loadRevenueData`, restricted to the
MRR column: skip non-successful and out-of-range payments, otherwise add
the amount to the bucket keyed by the payment month (a missing or
unparseable `created_at` yields a key matching no bucket). -/
def revenueStep (bounds : Option DateTime × Option DateTime)
    (bs : List (Int × Int)) (p : PaymentRec) : List (Int × Int) :=
  if isSuccessfulR p && isWithinRange bounds p.created_at then
    match p.created_at with
    | none => bs
    | some d => updateFirst bs (monthIdx d) p.amount
  else bs

/-- The MRR buckets computed by `loadRevenueData`: zero-initialized
buckets keyed by the month sequence, folded over the payments. -/
def loadRevenueBuckets (filters : Filters) (now : DateTime)
    (payments : List PaymentRec) : List (Int × Int) :=
  payments.foldl (revenueStep (getRangeBounds filters))
    ((buildMonthSequence filters now).map (fun m => (m, 0)))

/-- Sum of all bucket values. -/
def bucketSum (bs : List (Int × Int)) : Int :=
  (bs.map Prod.snd).sum

/-- A payment that actually lands in a bucket: successful, within the
range bounds, with a present date whose month is one of the buckets. -/
def countsPayment (filters : Filters) (now : DateTime) (p : PaymentRec) : Bool :=
  isSuccessfulR p && isWithinRange (getRangeBounds filters) p.created_at &&
    (match p.created_at with
     | none => false
     | some d => decide (monthIdx d ∈ buildMonthSequence filters now))

/-! ## Payment gateway toggling (src/pages/PaymentGateways.tsx) -/

/-- ASCII lowering of one character: the effect of `toLowerCase()` on the
ASCII gateway names. -/
def lowerChar (c : Char) : Char :=
  if 'A' ≤ c && c ≤ 'Z' then Char.ofNat (c.toNat + 32) else c

/-- `toLowerCase()` over the character list of a string. -/
def lowerStr (s : List Char) : List Char := s.map lowerChar

/-- Is `needle` an initial segment of `hay`? -/
def startsWithCL : List Char → List Char → Bool
  | [], _ => true
  | _ :: _, [] => false
  | a :: as, b :: bs => a == b && startsWithCL as bs

/-- `hay.includes(needle)` on character lists. -/
def containsCL (needle : List Char) : List Char → Bool
  | [] => needle.isEmpty
  | c :: rest => startsWithCL needle (c :: rest) || containsCL needle rest

/-- `gateway.name.toLowerCase().includes(needle)`. -/
def nameHas (name : String) (needle : String) : Bool :=
  containsCL needle.data (lowerStr name.data)

/-- A payment gateway, restricted to the fields `performToggle` and the
enable/disable semantics read: numeric id (the code's string ids are
`parseInt`-canonical), display name and enabled flag. -/
structure Gateway where
  id : Int
  name : String
  enabled : Bool
deriving DecidableEq

/-- Whether a gateway is one of the mutually exclusive pair. -/
def isPS (g : Gateway) : Bool :=
  nameHas g.name "paytabs" || nameHas g.name "stripe"

/-- The API calls `performToggle` can issue, in order:
`updatePaymentGatewayAPI(id, {..., enabled})` and
`togglePaymentGatewayAPI(id)`. -/
inductive ApiCall where
  | update (id : Int) (enabled : Bool)
  | toggle (id : Int)
deriving DecidableEq

/-- `performToggle(gatewayId, enabled)`: look the gateway up; when
enabling PayTabs or Stripe, first issue a disable update for the first
enabled gateway of the other kind (if any); then issue the toggle call. -/
def performToggle (gws : List Gateway) (gid : Int) (enabled : Bool) :
    List ApiCall :=
  match gws.find? (fun g => g.id == gid) with
  | none => []
  | some gw =>
    (if enabled && (nameHas gw.name "paytabs" || nameHas gw.name "stripe") then
      match gws.find? (fun g =>
          nameHas g.name (if nameHas gw.name "paytabs" then "stripe" else "paytabs")
            && g.enabled) with
      | some og => [ApiCall.update og.id false]
      | none => []
    else []) ++ [ApiCall.toggle gid]

/-- Backend semantics of one call: `update` stores the sent `enabled`
flag, `toggle` flips the stored flag. -/
def applyCall (st : List Gateway) : ApiCall → List Gateway
  | .update gid e => st.map (fun g => if g.id == gid then { g with enabled := e } else g)
  | .toggle gid => st.map (fun g => if g.id == gid then { g with enabled := !g.enabled } else g)

/-- Backend state after a sequence of calls. -/
def applyCalls (st : List Gateway) (calls : List ApiCall) : List Gateway :=
  calls.foldl applyCall st

/-! ## Theorems: permission resolver and guard (C4, C10, C5) -/

/-- Claim C4: the permission resolver returns true for every capability
when the user is a superuser (whatever the limited-admin profile holds),
false for every capability for a non-superuser without a limited-admin
profile, and false for every capability when no user is loaded. -/
theorem hasPermission_superuser_and_fail_closed :
    (∀ p, hasPermission none p = false) ∧
    (∀ (u : UserRec) (p : Capability), u.is_superuser = true →
      hasPermission (some u) p = true) ∧
    (∀ (u : UserRec) (p : Capability), u.is_superuser = false →
      u.limited_admin = none → hasPermission (some u) p = false) := by
  refine ⟨fun p => rfl, fun u p hsu => ?_, fun u p hsu hla => ?_⟩
  · simp [hasPermission, hsu]
  · simp [hasPermission, hsu, hla]

/-- Witness for C4 at concrete users: a superuser whose profile has every
flag false, and a plain user with no profile. -/
theorem hasPermission_superuser_and_fail_closed_witness :
    hasPermission none .can_manage_tenants = false ∧
    hasPermission
      (some ⟨1, true, some ⟨7, false, ⟨false, false, false, false, false, false, false, false⟩⟩⟩)
      .can_manage_tenants = true ∧
    hasPermission (some ⟨2, false, none⟩) .can_manage_tenants = false :=
  ⟨hasPermission_superuser_and_fail_closed.1 _,
   hasPermission_superuser_and_fail_closed.2.1 _ _ rfl,
   hasPermission_superuser_and_fail_closed.2.2 _ _ rfl rfl⟩

/-- Claim C10: for a non-superuser with a limited-admin profile, the
resolver returns exactly the named capability flag even when the profile
has `is_active = false` — the resolver never consults `is_active`. -/
theorem hasPermission_ignores_profile_is_active
    (u : UserRec) (la : LimitedAdminRec) (p : Capability)
    (hsu : u.is_superuser = false) (hla : u.limited_admin = some la)
    (hact : la.is_active = false) :
    hasPermission (some u) p = permGet la.permissions p := by
  simp [hasPermission, hsu, hla]

/-- Witness for C10: an inactive limited admin with `can_manage_tenants`
set still resolves that capability to true. -/
theorem hasPermission_ignores_profile_is_active_witness :
    hasPermission
      (some ⟨3, false, some ⟨9, false, ⟨false, true, false, false, false, false, false, false⟩⟩⟩)
      .can_manage_tenants = true :=
  (hasPermission_ignores_profile_is_active
    ⟨3, false, some ⟨9, false, ⟨false, true, false, false, false, false, false, false⟩⟩⟩
    ⟨9, false, ⟨false, true, false, false, false, false, false, false⟩⟩
    .can_manage_tenants rfl rfl rfl).trans rfl

/-- The guard's render condition coincides with the resolver: the
superuser disjunct is absorbed because the resolver already grants
superusers everything. -/
theorem guard_cond_eq_resolver (user : Option UserRec) (p : Capability) :
    (isSuperAdmin user || hasPermission user p) = hasPermission user p := by
  cases user with
  | none => rfl
  | some u => cases h : u.is_superuser <;> simp [isSuperAdmin, hasPermission, h]

/-- Claim C5: while the current-user fetch is in flight the guard renders
the full-page loader; once resolved it renders the page exactly when the
resolver grants the capability and otherwise redirects to the dashboard
(the component has no 403 output at all). -/
theorem permissionGuard_renders_iff_resolver :
    (∀ user p, permissionGuard true user p = .loader) ∧
    (∀ user p, permissionGuard false user p =
      if hasPermission user p then .page else .redirectDashboard) := by
  constructor
  · intro user p; rfl
  · intro user p
    simp [permissionGuard, guard_cond_eq_resolver]

/-! ## Theorems: best-active-subscription selection (C1) -/

/-- `find?` only depends on the predicate's values on the list. -/
theorem find?_congrList {α : Type} {p q : α → Bool} :
    ∀ {l : List α}, (∀ x ∈ l, p x = q x) → l.find? p = l.find? q := by
  intro l
  induction l with
  | nil => intro _; rfl
  | cons a l ih =>
    intro h
    have ha := h a (List.mem_cons_self a l)
    by_cases hp : p a = true
    · rw [List.find?_cons_of_pos _ hp, List.find?_cons_of_pos _ (ha ▸ hp)]
    · have hq : q a ≠ true := fun hx => hp (ha ▸ hx)
      rw [List.find?_cons_of_neg _ hp, List.find?_cons_of_neg _ hq,
        ih (fun x hx => h x (List.mem_cons_of_mem a hx))]

/-- Every nonempty list of subscriptions has a member whose `end_date`
dominates the whole list. -/
theorem exists_max_end : ∀ (l : List SubRec), l ≠ [] →
    ∃ u ∈ l, (l.all (fun t => decide (t.end_date ≤ u.end_date))) = true := by
  intro l
  induction l with
  | nil => intro h; exact absurd rfl h
  | cons s l ih =>
    intro _
    cases hl : l with
    | nil =>
      exact ⟨s, List.mem_cons_self s [], by simp⟩
    | cons b m =>
      rw [← hl]
      have hne : l ≠ [] := by rw [hl]; exact List.cons_ne_nil b m
      obtain ⟨u, hu, hall⟩ := ih hne
      rw [List.all_eq_true] at hall
      by_cases hcmp : s.end_date ≤ u.end_date
      · refine ⟨u, List.mem_cons_of_mem s hu, ?_⟩
        rw [List.all_eq_true]
        intro t ht
        rcases List.mem_cons.mp ht with rfl | ht
        · simpa using hcmp
        · exact hall t ht
      · refine ⟨s, List.mem_cons_self s l, ?_⟩
        rw [List.all_eq_true]
        intro t ht
        rcases List.mem_cons.mp ht with rfl | ht
        · simp
        · have := hall t ht
          simp only [decide_eq_true_eq] at this ⊢
          omega

/-- Characterization of the strict-greater fold: starting from accumulator
`b`, the result is the first element that beats `b` and dominates the
whole list, and `b` itself when no element does. -/
theorem foldBest_eq : ∀ (l : List SubRec) (b : Option SubRec),
    foldBest b l =
      (l.find? (fun s => betterB s b &&
        l.all (fun t => decide (t.end_date ≤ s.end_date)))).elim b some := by
  intro l
  induction l with
  | nil => intro b; rfl
  | cons s rest ih =>
    intro b
    simp only [foldBest]
    by_cases hb : betterB s b = true
    · rw [if_pos hb]
      by_cases hall : rest.all (fun t => decide (t.end_date ≤ s.end_date)) = true
      · have hps : (betterB s b &&
            (s :: rest).all (fun t => decide (t.end_date ≤ s.end_date))) = true := by
          rw [List.all_cons]; simp [hb, hall]
        rw [List.find?_cons, hps]
        have hnone : rest.find? (fun u => betterB u (some s) &&
            rest.all (fun t => decide (t.end_date ≤ u.end_date))) = none := by
          rw [List.find?_eq_none]
          intro u hu
          have : u.end_date ≤ s.end_date := by
            have := List.all_eq_true.mp hall u hu
            simpa using this
          simp [betterB]
          omega
        rw [ih (some s), hnone]
        rfl
      · have hps : (betterB s b &&
            (s :: rest).all (fun t => decide (t.end_date ≤ s.end_date))) = false := by
          rw [List.all_cons]
          simp [Bool.eq_false_iff.mpr hall]
        rw [List.find?_cons, hps]
        obtain ⟨t, ht, htgt⟩ := List.all_eq_false.mp (Bool.eq_false_iff.mpr hall)
        have htgt' : s.end_date < t.end_date := by
          simpa using htgt
        have hpointwise : ∀ u ∈ rest,
            (betterB u b && (s :: rest).all (fun t => decide (t.end_date ≤ u.end_date))) =
            (betterB u (some s) && rest.all (fun t => decide (t.end_date ≤ u.end_date))) := by
          intro u hu
          by_cases hau : rest.all (fun t => decide (t.end_date ≤ u.end_date)) = true
          · have htu : t.end_date ≤ u.end_date := by
              have := List.all_eq_true.mp hau t ht
              simpa using this
            have hsu : s.end_date < u.end_date := lt_of_lt_of_le htgt' htu
            have hbb : betterB u b = true := by
              cases b with
              | none => rfl
              | some p =>
                have hps' : p.end_date < s.end_date := by
                  simpa [betterB] using hb
                simp [betterB]
                omega
            rw [List.all_cons, hbb]
            simp [hau, betterB]
            omega
          · rw [List.all_cons]
            simp [Bool.eq_false_iff.mpr hau]
        rw [find?_congrList hpointwise, ih (some s)]
        obtain ⟨um, hum, hallum⟩ := exists_max_end rest (List.ne_nil_of_mem ht)
        have hsum : s.end_date < um.end_date := by
          have := List.all_eq_true.mp hallum t ht
          simp only [decide_eq_true_eq] at this
          omega
        have hpm : (betterB um (some s) &&
            rest.all (fun t => decide (t.end_date ≤ um.end_date))) = true := by
          simp [betterB, hallum]
          omega
        cases hf : rest.find? (fun u => betterB u (some s) &&
            rest.all (fun t => decide (t.end_date ≤ u.end_date))) with
        | some v => rfl
        | none =>
          exact absurd hpm (List.find?_eq_none.mp hf um hum)
    · rw [if_neg hb]
      cases b with
      | none => exact absurd rfl hb
      | some p =>
        have hsp : s.end_date ≤ p.end_date := by
          have := Bool.eq_false_iff.mpr hb
          simp [betterB] at this
          omega
        have hps : (betterB s (some p) &&
            (s :: rest).all (fun t => decide (t.end_date ≤ s.end_date))) = false := by
          simp [Bool.eq_false_iff.mpr hb]
        rw [List.find?_cons, hps]
        have hpointwise : ∀ u ∈ rest,
            (betterB u (some p) && (s :: rest).all (fun t => decide (t.end_date ≤ u.end_date))) =
            (betterB u (some p) && rest.all (fun t => decide (t.end_date ≤ u.end_date))) := by
          intro u hu
          by_cases hbu : betterB u (some p) = true
          · have hpu : p.end_date < u.end_date := by simpa [betterB] using hbu
            rw [List.all_cons]
            have hsu : (decide (s.end_date ≤ u.end_date)) = true := by
              simp; omega
            rw [hsu]
            simp
          · simp [Bool.eq_false_iff.mpr hbu]
        rw [ih (some p), find?_congrList hpointwise]

/-- The subscription map built by `loadTenants`, read at company `c`,
is the strict-greater fold over exactly that company's active
subscriptions, in input order. -/
theorem buildSubMapAux_eq : ∀ (l : List SubRec) (m : Int → Option SubRec) (c : Int),
    buildSubMapAux m l c =
      foldBest (m c) (l.filter (fun s => decide (s.company = c) && s.is_active)) := by
  intro l
  induction l with
  | nil => intro m c; rfl
  | cons s l ih =>
    intro m c
    simp only [buildSubMapAux, List.filter_cons]
    by_cases hc : s.company = c
    · by_cases ha : s.is_active = true
      · have hfc : (decide (s.company = c) && s.is_active) = true := by simp [hc, ha]
        rw [hfc]
        simp only [foldBest]
        by_cases hbet : betterB s (m s.company) = true
        · have hcond : (s.is_active && betterB s (m s.company)) = true := by simp [ha, hbet]
          rw [hcond, if_pos rfl, ih]
          have h1 : mapSet m s c = some s := by simp [mapSet, hc]
          have h2 : betterB s (m c) = true := by rwa [hc] at hbet
          rw [h1, if_pos h2]
        · have hcond : (s.is_active && betterB s (m s.company)) = false := by
            simp [Bool.eq_false_iff.mpr hbet]
          rw [hcond]
          simp only [Bool.false_eq_true, if_false]
          rw [ih]
          have h2 : ¬ betterB s (m c) = true := by rwa [hc] at hbet
          rw [if_neg h2]
      · have ha' : s.is_active = false := Bool.eq_false_iff.mpr ha
        have hfc : (decide (s.company = c) && s.is_active) = false := by simp [ha']
        rw [hfc]
        simp only [Bool.false_eq_true, if_false]
        rw [ha']
        simp only [Bool.false_and, Bool.false_eq_true, if_false]
        exact ih m c
    · have hfc : (decide (s.company = c) && s.is_active) = false := by simp [hc]
      rw [hfc]
      simp only [Bool.false_eq_true, if_false]
      by_cases hcond : (s.is_active && betterB s (m s.company)) = true
      · rw [hcond, if_pos rfl, ih]
        have : mapSet m s c = m c := by
          simp only [mapSet]
          exact if_neg (fun h => hc h.symm)
        rw [this]
      · rw [Bool.eq_false_iff.mpr hcond]
        simp only [Bool.false_eq_true, if_false]
        exact ih m c

/-- The characterization behind claim C1, kept as a shared helper: the
map read at `c` equals the spec-side selection over that company's
active subscriptions. -/
theorem buildSubMap_char (subs : List SubRec) (c : Int) :
    buildSubMap subs c =
      specBest (subs.filter (fun s => decide (s.company = c) && s.is_active)) := by
  rw [buildSubMap, buildSubMapAux_eq, foldBest_eq]
  have hcongr : (subs.filter (fun s => decide (s.company = c) && s.is_active)).find?
        (fun s => betterB s none &&
          (subs.filter (fun s => decide (s.company = c) && s.is_active)).all
            (fun t => decide (t.end_date ≤ s.end_date))) =
      (subs.filter (fun s => decide (s.company = c) && s.is_active)).find?
        (fun s =>
          (subs.filter (fun s => decide (s.company = c) && s.is_active)).all
            (fun t => decide (t.end_date ≤ s.end_date))) := by
    apply find?_congrList
    intro x _
    simp [betterB]
  rw [hcongr, specBest]
  cases (subs.filter (fun s => decide (s.company = c) && s.is_active)).find?
      (fun s =>
        (subs.filter (fun s => decide (s.company = c) && s.is_active)).all
          (fun t => decide (t.end_date ≤ s.end_date))) with
  | none => rfl
  | some v => rfl

/-- Claim C1: for every collection of subscription records and every
company, the tenant projector selects as that company's current
subscription the first active record attaining the maximum `end_date`
among the company's subscriptions — ties on exactly equal `end_date` keep
the record encountered first in input order, because the replacement
comparison is strict `>`. -/
theorem projector_selects_first_max_active (subs : List SubRec) (c : Int) :
    buildSubMap subs c =
      specBest (subs.filter (fun s => decide (s.company = c) && s.is_active)) :=
  buildSubMap_char subs c

/-! ## Theorems: projected tenant status (C6, C7) -/

/-- Any subscription stored in the map is one of the company's active
subscriptions. -/
theorem buildSubMap_mem_active {subs : List SubRec} {c : Int} {s : SubRec}
    (h : buildSubMap subs c = some s) :
    s ∈ subs ∧ s.company = c ∧ s.is_active = true := by
  rw [buildSubMap_char] at h
  have hmem := List.mem_of_find?_eq_some h
  have := List.mem_filter.mp hmem
  rcases this with ⟨hs, hpred⟩
  simp only [Bool.and_eq_true, decide_eq_true_eq] at hpred
  exact ⟨hs, hpred.1, hpred.2⟩

/-- A company with no active subscription has no entry in the map. -/
theorem buildSubMap_none {subs : List SubRec} {c : Int}
    (h : ∀ s ∈ subs, s.company = c → s.is_active = false) :
    buildSubMap subs c = none := by
  rw [buildSubMap_char]
  have hfil : subs.filter (fun s => decide (s.company = c) && s.is_active) = [] := by
    rw [List.filter_eq_nil_iff]
    intro s hs
    by_cases hc : s.company = c
    · simp [hc, h s hs hc]
    · simp [hc]
  rw [hfil]
  rfl

/-- Claim C6: when a company's selected subscription is active (which
every selected subscription is), the projected status is `Expired`
exactly when its `end_date` lies strictly before the current time, and
`Active` otherwise. -/
theorem projected_status_active_or_expired
    (now : Int) (subs : List SubRec) (c : CompanyRec) (s : SubRec)
    (hsel : buildSubMap subs c.id = some s) (hact : s.is_active = true) :
    (projectTenant now (buildSubMap subs) c).status =
      if s.end_date < now then TenantStatus.Expired else TenantStatus.Active := by
  simp only [projectTenant, hsel, hact]
  simp

/-- Witness for C6 at concrete data: one active subscription already
ended (`Expired`), the same one still running (`Active`). -/
theorem projected_status_active_or_expired_witness :
    (projectTenant 10 (buildSubMap [⟨1, true, 0, 5⟩]) ⟨1, some 0⟩).status =
      TenantStatus.Expired ∧
    (projectTenant 3 (buildSubMap [⟨1, true, 0, 5⟩]) ⟨1, some 0⟩).status =
      TenantStatus.Active := by
  constructor
  · exact (projected_status_active_or_expired 10 [⟨1, true, 0, 5⟩] ⟨1, some 0⟩
      ⟨1, true, 0, 5⟩ (by decide) rfl).trans (by decide)
  · exact (projected_status_active_or_expired 3 [⟨1, true, 0, 5⟩] ⟨1, some 0⟩
      ⟨1, true, 0, 5⟩ (by decide) rfl).trans (by decide)

/-- Claim C7: a company with zero active subscriptions projects to status
`Deactivated`, an absent `endDate`, and a `startDate` that falls back to
the company's own creation date. -/
theorem projected_deactivated_no_active
    (now : Int) (subs : List SubRec) (c : CompanyRec) (t : Int)
    (hno : ∀ s ∈ subs, s.company = c.id → s.is_active = false)
    (hca : c.created_at = some t) :
    (projectTenant now (buildSubMap subs) c).status = TenantStatus.Deactivated ∧
    (projectTenant now (buildSubMap subs) c).endDate = none ∧
    (projectTenant now (buildSubMap subs) c).startDate = some (isoDay t) := by
  have hmap := buildSubMap_none hno
  simp [projectTenant, hmap, hca]

/-- Witness for C7: a company whose only subscription is inactive. -/
theorem projected_deactivated_no_active_witness :
    (projectTenant 10 (buildSubMap [⟨1, false, 0, 5⟩]) ⟨1, some 86400001⟩).status =
      TenantStatus.Deactivated ∧
    (projectTenant 10 (buildSubMap [⟨1, false, 0, 5⟩]) ⟨1, some 86400001⟩).endDate = none ∧
    (projectTenant 10 (buildSubMap [⟨1, false, 0, 5⟩]) ⟨1, some 86400001⟩).startDate =
      some (isoDay 86400001) :=
  projected_deactivated_no_active 10 [⟨1, false, 0, 5⟩] ⟨1, some 86400001⟩ 86400001
    (by decide) rfl

/-! ## Theorems: month-sequence construction (C3, C8) -/

/-- Closed form of the guarded cursor loop: the month indices from `s`,
as many as fit both the range and the 60-step fuel. -/
theorem monthLoop_eq : ∀ (fuel : Nat) (s e : Int),
    monthLoop s e fuel =
      (List.range (min (e + 1 - s).toNat fuel)).map (fun i : Nat => s + (i : Int)) := by
  intro fuel
  induction fuel with
  | zero => intro s e; simp [monthLoop]
  | succ fuel ih =>
    intro s e
    simp only [monthLoop]
    by_cases h : s ≤ e
    · rw [if_pos h, ih (s + 1) e]
      have h2 : min (e + 1 - s).toNat (fuel + 1) = min (e + 1 - (s + 1)).toNat fuel + 1 := by
        omega
      rw [h2, List.range_succ_eq_map, List.map_cons, List.map_map]
      congr 1
      · simp
      · apply List.map_congr_left
        intro i _
        simp only [Function.comp_apply]
        push_cast
        ring
    · rw [if_neg h]
      have h0 : (e + 1 - s).toNat = 0 := by omega
      simp [h0]

/-- Length of the guarded loop output. -/
theorem monthLoop_length (s e : Int) :
    (monthLoop s e 60).length = min (e + 1 - s).toNat 60 := by
  rw [monthLoop_eq]
  simp

/-- Month-level ordering refines instant-level ordering on well-formed
calendar values. -/
theorem monthIdx_le_of_toKey_lt {a b : DateTime} (ha : a.Wf) (hb : b.Wf)
    (h : a.toKey < b.toKey) : monthIdx a ≤ monthIdx b := by
  rcases ha with ⟨ham, _, had, hams⟩
  rcases hb with ⟨hbm, _, hbd, hbms⟩
  simp only [DateTime.toKey] at h
  simp only [monthIdx]
  omega

/-- The loop emits at least one month whenever the range is nonempty. -/
theorem monthLoop_ne_nil (s e : Int) (h : s ≤ e) : monthLoop s e 60 ≠ [] := by
  intro hnil
  have := monthLoop_length s e
  rw [hnil] at this
  simp at this
  omega


/-- The empty-sequence fallback branch is dead once the range is
nonempty. -/
theorem monthSeqFallback (s0 e0 : Int) (h : s0 ≤ e0) :
    (if (monthLoop s0 e0 60).isEmpty then [e0] else monthLoop s0 e0 60) = monthLoop s0 e0 60 := by
  rw [if_neg (by simp [List.isEmpty_iff, monthLoop_ne_nil s0 e0 h])]

/-- Claim C3 (amended): for a both-bounded range spanning more than 12
but at most 60 calendar months, `buildMonthSequence` returns exactly the
most recent 12 months of the range (normalized to month starts); when
the span exceeds the 60-step loop guard, the walk stops after the first
60 months and the function instead returns months 49-60 counted from the
start of the range; in every case the guarded loop iterates at most 60
times. -/
theorem buildMonthSequence_cap_behavior :
    (∀ (f t now : DateTime), 12 < monthIdx t - monthIdx f + 1 →
      monthIdx t - monthIdx f + 1 ≤ 60 →
      buildMonthSequence ⟨some f, some t⟩ now =
        (List.range 12).map (fun i : Nat => monthIdx t - 11 + (i : Int))) ∧
    (∀ (f t now : DateTime), 60 < monthIdx t - monthIdx f + 1 →
      buildMonthSequence ⟨some f, some t⟩ now =
        (List.range 12).map (fun i : Nat => monthIdx f + 48 + (i : Int))) ∧
    (∀ s e : Int, (monthLoop s e 60).length ≤ 60) := by
  refine ⟨?_, ?_, ?_⟩
  · intro f t now h12 h60
    have hle : ¬ monthIdx f > monthIdx t := by omega
    simp only [buildMonthSequence]
    rw [if_neg hle, monthSeqFallback _ _ (by omega),
      if_pos (by rw [monthLoop_length]; omega), monthLoop_eq]
    apply List.ext_getElem
    · simp
      omega
    · intro n h1 h2
      rw [List.getElem_drop, List.getElem_map, List.getElem_range,
        List.getElem_map, List.getElem_range]
      simp only [List.length_map, List.length_range]
      push_cast
      omega
  · intro f t now h60
    have hle : ¬ monthIdx f > monthIdx t := by omega
    simp only [buildMonthSequence]
    rw [if_neg hle, monthSeqFallback _ _ (by omega),
      if_pos (by rw [monthLoop_length]; omega), monthLoop_eq]
    apply List.ext_getElem
    · simp
      omega
    · intro n h1 h2
      rw [List.getElem_drop, List.getElem_map, List.getElem_range,
        List.getElem_map, List.getElem_range]
      simp only [List.length_map, List.length_range]
      push_cast
      omega
  · intro s e
    rw [monthLoop_length]
    omega

/-- Counterexample to claim C3 as stated: a hundred-year range (span
1200 months) does not yield the most recent 12 months of the range —
the guard truncates the walk 60 months after the start, in 2004. -/
theorem buildMonthSequence_cap_cex :
    buildMonthSequence ⟨some ⟨2000, 0, 1, 0⟩, some ⟨2099, 11, 31, 0⟩⟩ ⟨2024, 5, 15, 0⟩ ≠
      (List.range 12).map (fun i : Nat => monthIdx ⟨2099, 11, 31, 0⟩ - 11 + (i : Int)) := by
  decide

/-- Witness for C3 (amended) at a concrete 24-month range: the most
recent 12 months are kept. -/
theorem buildMonthSequence_cap_behavior_witness :
    buildMonthSequence ⟨some ⟨2023, 0, 1, 0⟩, some ⟨2024, 11, 31, 0⟩⟩ ⟨2024, 5, 15, 0⟩ =
      (List.range 12).map (fun i : Nat => monthIdx ⟨2024, 11, 31, 0⟩ - 11 + (i : Int)) :=
  buildMonthSequence_cap_behavior.1 ⟨2023, 0, 1, 0⟩ ⟨2024, 11, 31, 0⟩ ⟨2024, 5, 15, 0⟩
    (by decide) (by decide)

/-- Claim C8: the month sequence always holds between 1 and 12 buckets;
a filter whose `fromDate` lies after its `toDate` produces a single
bucket; absent bounds default to the trailing 12 calendar months ending
at the current month. -/
theorem buildMonthSequence_bounds :
    (∀ (filters : Filters) (now : DateTime),
      1 ≤ (buildMonthSequence filters now).length ∧
      (buildMonthSequence filters now).length ≤ 12) ∧
    (∀ (f t now : DateTime), f.Wf → t.Wf → t.toKey < f.toKey →
      (buildMonthSequence ⟨some f, some t⟩ now).length = 1) ∧
    (∀ now : DateTime, buildMonthSequence ⟨none, none⟩ now =
      (List.range 12).map (fun i : Nat => monthIdx now - 11 + (i : Int))) := by
  refine ⟨?_, ?_, ?_⟩
  · intro filters now
    simp only [buildMonthSequence]
    by_cases hgt : (match filters.fromDate with
        | some d => monthIdx d
        | none => monthIdx now - 11) > (match filters.toDate with
        | some d => monthIdx d
        | none => monthIdx now)
    · rw [if_pos hgt]
      simp
    · rw [if_neg hgt]
      rw [monthSeqFallback _ _ (by omega)]
      by_cases h12 : (monthLoop (match filters.fromDate with
          | some d => monthIdx d
          | none => monthIdx now - 11) (match filters.toDate with
          | some d => monthIdx d
          | none => monthIdx now) 60).length > 12
      · rw [if_pos h12]
        rw [List.length_drop]
        omega
      · rw [if_neg h12]
        constructor
        · rw [monthLoop_length]
          omega
        · omega
  · intro f t now hwf hwt hlt
    have hmle := monthIdx_le_of_toKey_lt hwt hwf hlt
    simp only [buildMonthSequence]
    by_cases hgt : monthIdx f > monthIdx t
    · rw [if_pos hgt]
      rfl
    · rw [if_neg hgt]
      have heq : monthIdx f = monthIdx t := by omega
      rw [monthSeqFallback _ _ (by omega)]
      have hlen : (monthLoop (monthIdx f) (monthIdx t) 60).length = 1 := by
        rw [monthLoop_length]
        omega
      rw [if_neg (by omega)]
      exact hlen
  · intro now
    simp only [buildMonthSequence]
    rw [if_neg (by omega)]
    rw [monthSeqFallback _ _ (by omega)]
    have hlen : (monthLoop (monthIdx now - 11) (monthIdx now) 60).length = 12 := by
      rw [monthLoop_length]
      omega
    rw [if_neg (by omega)]
    rw [monthLoop_eq]
    have : min (monthIdx now + 1 - (monthIdx now - 11)).toNat 60 = 12 := by omega
    rw [this]

/-- Witness for C8 at a concrete reversed range inside one month. -/
theorem buildMonthSequence_bounds_witness :
    (1 ≤ (buildMonthSequence ⟨some ⟨2024, 5, 20, 0⟩, some ⟨2024, 5, 5, 0⟩⟩ ⟨2024, 5, 15, 0⟩).length ∧
      (buildMonthSequence ⟨some ⟨2024, 5, 20, 0⟩, some ⟨2024, 5, 5, 0⟩⟩ ⟨2024, 5, 15, 0⟩).length ≤ 12) ∧
    (buildMonthSequence ⟨some ⟨2024, 5, 20, 0⟩, some ⟨2024, 5, 5, 0⟩⟩ ⟨2024, 5, 15, 0⟩).length = 1 :=
  ⟨buildMonthSequence_bounds.1 ⟨some ⟨2024, 5, 20, 0⟩, some ⟨2024, 5, 5, 0⟩⟩ ⟨2024, 5, 15, 0⟩,
   buildMonthSequence_bounds.2.1 ⟨2024, 5, 20, 0⟩ ⟨2024, 5, 5, 0⟩ ⟨2024, 5, 15, 0⟩
     (by decide) (by decide) (by decide)⟩

/-! ## Theorems: revenue bucketing (C2) -/

/-- Bucket keys are untouched by an in-place addition. -/
theorem updateFirst_keys (bs : List (Int × Int)) (key amt : Int) :
    (updateFirst bs key amt).map Prod.fst = bs.map Prod.fst := by
  induction bs with
  | nil => rfl
  | cons kv rest ih =>
    rcases kv with ⟨k, v⟩
    simp only [updateFirst]
    by_cases h : k = key
    · rw [if_pos h]
      simp
    · rw [if_neg h]
      simp [ih]

/-- An in-place addition raises the total by the amount exactly when some
bucket carries the key, and by nothing otherwise. -/
theorem bucketSum_updateFirst (bs : List (Int × Int)) (key amt : Int) :
    bucketSum (updateFirst bs key amt) =
      bucketSum bs + (if key ∈ bs.map Prod.fst then amt else 0) := by
  induction bs with
  | nil => simp [updateFirst, bucketSum]
  | cons kv rest ih =>
    rcases kv with ⟨k, v⟩
    simp only [updateFirst]
    by_cases h : k = key
    · rw [if_pos h]
      simp only [bucketSum, List.map_cons, List.sum_cons]
      have hm : key ∈ k :: rest.map Prod.fst := by
        simp [h]
      rw [if_pos hm]
      ring
    · rw [if_neg h]
      simp only [bucketSum, List.map_cons, List.sum_cons] at ih ⊢
      have hiff : key ∈ Prod.fst (k, v) :: rest.map Prod.fst ↔ key ∈ rest.map Prod.fst := by
        simp only [List.mem_cons]
        constructor
        · rintro (hk | hk)
          · exact absurd hk.symm h
          · exact hk
        · exact fun hk => Or.inr hk
      by_cases hm : key ∈ rest.map Prod.fst
      · rw [ih, if_pos hm, if_pos (hiff.mpr hm)]
        ring
      · rw [ih, if_neg hm, if_neg (fun hk => hm (hiff.mp hk))]
        ring

/-- One aggregation step never changes the bucket keys. -/
theorem revenueStep_keys (bounds : Option DateTime × Option DateTime)
    (bs : List (Int × Int)) (p : PaymentRec) :
    (revenueStep bounds bs p).map Prod.fst = bs.map Prod.fst := by
  unfold revenueStep
  cases hcr : p.created_at with
  | none =>
    cases hguard : (isSuccessfulR p && isWithinRange bounds none) <;> simp
  | some d =>
    cases hguard : (isSuccessfulR p && isWithinRange bounds (some d)) <;>
      simp [updateFirst_keys]

/-- Folding the aggregation step raises the total by exactly the amounts
of the successful, in-range payments whose month key is one of the
current buckets. -/
theorem foldl_revenueStep_sum (bounds : Option DateTime × Option DateTime) :
    ∀ (l : List PaymentRec) (bs : List (Int × Int)),
    bucketSum (l.foldl (revenueStep bounds) bs) =
      bucketSum bs +
        ((l.filter (fun p => isSuccessfulR p && isWithinRange bounds p.created_at &&
          (match p.created_at with
           | none => false
           | some d => decide (monthIdx d ∈ bs.map Prod.fst)))).map PaymentRec.amount).sum := by
  intro l
  induction l with
  | nil => intro bs; simp
  | cons p l ih =>
    intro bs
    cases hcr : p.created_at with
    | none =>
      have hstep : revenueStep bounds bs p = bs := by
        unfold revenueStep
        rw [hcr]
        cases hguard : (isSuccessfulR p && isWithinRange bounds none) <;> simp
      simp only [List.foldl_cons, hstep, List.filter_cons, hcr, Bool.and_false,
        Bool.false_eq_true, if_false]
      exact ih bs
    | some d =>
      by_cases hc : (isSuccessfulR p && isWithinRange bounds (some d)) = true
      · have hstep : revenueStep bounds bs p = updateFirst bs (monthIdx d) p.amount := by
          unfold revenueStep
          rw [hcr, if_pos hc]
        simp only [List.foldl_cons, hstep, List.filter_cons, hcr]
        rw [ih (updateFirst bs (monthIdx d) p.amount), updateFirst_keys,
          bucketSum_updateFirst]
        by_cases hm : monthIdx d ∈ bs.map Prod.fst
        · rw [if_pos hm]
          simp only [hc, Bool.true_and, hm, decide_True, if_true, List.map_cons,
            List.sum_cons]
          ring
        · rw [if_neg hm]
          simp only [hc, Bool.true_and, hm, decide_False, Bool.false_eq_true, if_false]
          ring
      · have hstep : revenueStep bounds bs p = bs := by
          unfold revenueStep
          rw [hcr, if_neg hc]
        have hcf : (isSuccessfulR p && isWithinRange bounds (some d)) = false :=
          Bool.eq_false_iff.mpr hc
        simp only [List.foldl_cons, hstep, List.filter_cons, hcr, hcf, Bool.false_and,
          Bool.false_eq_true, if_false]
        exact ih bs

/-- Claim C2 (amended): summing all MRR bucket values equals the sum of
the amounts of the in-range successful payments whose month is one of
the generated buckets — payments outside the (at most 12) bucket months
are silently dropped even when in range; and a payment whose status is
not successful is never added to any bucket (removing it from the input
leaves the buckets unchanged). -/
theorem revenue_mrr_conservation :
    (∀ (filters : Filters) (now : DateTime) (payments : List PaymentRec),
      bucketSum (loadRevenueBuckets filters now payments) =
        ((payments.filter (countsPayment filters now)).map PaymentRec.amount).sum) ∧
    (∀ (filters : Filters) (now : DateTime) (l1 l2 : List PaymentRec) (p : PaymentRec),
      isSuccessfulR p = false →
      loadRevenueBuckets filters now (l1 ++ p :: l2) =
        loadRevenueBuckets filters now (l1 ++ l2)) := by
  constructor
  · intro filters now payments
    unfold loadRevenueBuckets
    rw [foldl_revenueStep_sum]
    have hsum0 : bucketSum ((buildMonthSequence filters now).map (fun m => (m, 0))) = 0 := by
      apply List.sum_eq_zero
      intro x hx
      simp only [List.map_map, List.mem_map, Function.comp_apply] at hx
      obtain ⟨m, _, hm⟩ := hx
      exact hm.symm
    have hkeys : ((buildMonthSequence filters now).map (fun m => (m, (0 : Int)))).map
        Prod.fst = buildMonthSequence filters now := by
      rw [List.map_map]
      exact List.map_id'' (fun x => rfl) _
    rw [hkeys, hsum0, zero_add]
    rfl
  · intro filters now l1 l2 p hfail
    unfold loadRevenueBuckets
    rw [List.foldl_append, List.foldl_append, List.foldl_cons]
    have hstep : ∀ bs, revenueStep (getRangeBounds filters) bs p = bs := by
      intro bs
      unfold revenueStep
      rw [hfail]
      simp
    rw [hstep]

/-- Counterexample to claim C2 as stated: with no filter set, every
payment is in range, but a successful payment five years old falls in no
bucket of the trailing-12-months sequence — the bucket total is 0 while
the in-range successful total is 100. -/
theorem revenue_mrr_conservation_cex :
    bucketSum (loadRevenueBuckets ⟨none, none⟩ ⟨2024, 5, 15, 0⟩
        [⟨"successful", some ⟨2020, 0, 1, 0⟩, 100⟩]) = 0 ∧
    ((([⟨"successful", some ⟨2020, 0, 1, 0⟩, 100⟩] :
        List PaymentRec).filter (fun p => isSuccessfulR p &&
          isWithinRange (getRangeBounds ⟨none, none⟩) p.created_at)).map
        PaymentRec.amount).sum = 100 := by
  constructor
  · decide
  · decide

/-- Witness for C2 (amended): the conservation identity at the
counterexample's data, and deleting a failed payment from a singleton
input leaves the buckets unchanged. -/
theorem revenue_mrr_conservation_witness :
    bucketSum (loadRevenueBuckets ⟨none, none⟩ ⟨2024, 5, 15, 0⟩
        [⟨"successful", some ⟨2020, 0, 1, 0⟩, 100⟩]) =
      ((([⟨"successful", some ⟨2020, 0, 1, 0⟩, 100⟩] :
          List PaymentRec).filter (countsPayment ⟨none, none⟩ ⟨2024, 5, 15, 0⟩)).map
          PaymentRec.amount).sum ∧
    loadRevenueBuckets ⟨none, none⟩ ⟨2024, 5, 15, 0⟩
        ([] ++ ⟨"failed", some ⟨2024, 5, 1, 0⟩, 7⟩ :: []) =
      loadRevenueBuckets ⟨none, none⟩ ⟨2024, 5, 15, 0⟩ ([] ++ []) :=
  ⟨revenue_mrr_conservation.1 ⟨none, none⟩ ⟨2024, 5, 15, 0⟩
      [⟨"successful", some ⟨2020, 0, 1, 0⟩, 100⟩],
   revenue_mrr_conservation.2 ⟨none, none⟩ ⟨2024, 5, 15, 0⟩ [] []
      ⟨"failed", some ⟨2024, 5, 1, 0⟩, 7⟩ (by decide)⟩

/-! ## Theorems: payment-gateway toggling (C9) -/

/-- With pairwise-distinct ids, members with equal ids coincide. -/
theorem gateway_mem_id_unique :
    ∀ {l : List Gateway}, l.Pairwise (fun a b => a.id ≠ b.id) →
      ∀ a ∈ l, ∀ b ∈ l, a.id = b.id → a = b := by
  intro l
  induction l with
  | nil =>
    intro _ a ha
    exact absurd ha (List.not_mem_nil a)
  | cons h tl ih =>
    intro hp a ha b hb hab
    have hhead := (List.pairwise_cons.mp hp).1
    have htail := (List.pairwise_cons.mp hp).2
    rcases List.mem_cons.mp ha with ha' | ha'
    · rcases List.mem_cons.mp hb with hb' | hb'
      · rw [ha', hb']
      · rw [ha'] at hab
        exact absurd hab (hhead b hb')
    · rcases List.mem_cons.mp hb with hb' | hb'
      · rw [hb'] at hab
        exact absurd hab.symm (hhead a ha')
      · exact ih htail a ha' b hb' hab

/-- With pairwise-distinct ids, a found id occurs exactly once. -/
theorem gateway_countP_id_one :
    ∀ {l : List Gateway} {gid : Int} {gw : Gateway},
      l.Pairwise (fun a b => a.id ≠ b.id) →
      l.find? (fun g => g.id == gid) = some gw →
      l.countP (fun g => g.id == gid) = 1 := by
  intro l
  induction l with
  | nil =>
    intro gid gw _ hf
    exact absurd hf (by simp)
  | cons h tl ih =>
    intro gid gw hp hf
    have hhead := (List.pairwise_cons.mp hp).1
    have htail := (List.pairwise_cons.mp hp).2
    by_cases hh : (h.id == gid) = true
    · rw [List.countP_cons_of_pos (fun g => g.id == gid) tl hh]
      have hz : tl.countP (fun g => g.id == gid) = 0 := by
        rw [List.countP_eq_zero]
        intro g hg
        have hne := hhead g hg
        simp only [beq_iff_eq] at hh ⊢
        omega
      rw [hz]
    · rw [List.countP_cons_of_neg (fun g => g.id == gid) tl (by simpa using hh)]
      rw [List.find?_cons, Bool.eq_false_iff.mpr hh] at hf
      exact ih htail hf

/-- Claim C9: toggling on one gateway of the PayTabs/Stripe pair while
the other is enabled issues the disable update for the other gateway
strictly before the toggle call, and afterwards exactly one gateway of
the pair is enabled.  `gw` is the toggled gateway (currently disabled,
as the UI passes the negated flag), `og` the enabled other one, and the
pair are the only PayTabs/Stripe gateways present. -/
theorem performToggle_mutual_exclusion
    (gws : List Gateway) (gid : Int) (gw og : Gateway)
    (hfind : gws.find? (fun g => g.id == gid) = some gw)
    (hgwdis : gw.enabled = false)
    (hps : isPS gw = true)
    (hother : gws.find? (fun g =>
        nameHas g.name (if nameHas gw.name "paytabs" then "stripe" else "paytabs")
          && g.enabled) = some og)
    (hids : gws.Pairwise (fun a b => a.id ≠ b.id))
    (honly : ∀ g ∈ gws, isPS g = true → g = gw ∨ g = og) :
    performToggle gws gid true = [ApiCall.update og.id false, ApiCall.toggle gid] ∧
    (applyCalls gws (performToggle gws gid true)).countP
      (fun g => isPS g && g.enabled) = 1 := by
  have hgwid : gw.id = gid := by
    have := List.find?_some hfind
    simpa using this
  have hgwmem : gw ∈ gws := List.mem_of_find?_eq_some hfind
  have hogmem : og ∈ gws := List.mem_of_find?_eq_some hother
  have hogen : og.enabled = true := by
    have := List.find?_some hother
    simp only [Bool.and_eq_true] at this
    exact this.2
  have hogne : og ≠ gw := by
    intro h
    rw [h, hgwdis] at hogen
    exact Bool.false_ne_true hogen
  have hogid : og.id ≠ gid := by
    intro h
    exact hogne (gateway_mem_id_unique hids og hogmem gw hgwmem (by omega))
  have hps' : (nameHas gw.name "paytabs" || nameHas gw.name "stripe") = true := hps
  have htrace : performToggle gws gid true =
      [ApiCall.update og.id false, ApiCall.toggle gid] := by
    simp only [performToggle, hfind, Bool.true_and, hps', if_true, hother]
    rfl
  refine ⟨htrace, ?_⟩
  rw [htrace]
  simp only [applyCalls, List.foldl_cons, List.foldl_nil, applyCall]
  rw [List.countP_map, List.countP_map]
  have hpointwise : ∀ g ∈ gws,
      (((fun g => isPS g && g.enabled) ∘
          fun g => if g.id == gid then { g with enabled := !g.enabled } else g) ∘
          fun g => if g.id == og.id then { g with enabled := false } else g) g =
        (g.id == gid) := by
    intro g hg
    simp only [Function.comp_apply]
    by_cases h2 : g.id = og.id
    · have h1 : ¬ g.id = gid := by omega
      simp [h1, h2, hogid, isPS]
    · by_cases h1 : g.id = gid
      · have hggw : g = gw := gateway_mem_id_unique hids g hg gw hgwmem (by omega)
        subst hggw
        have hgo : ¬ gid = og.id := by omega
        simp [h1, h2, hgo, hgwdis, isPS, hps']
      · have hnops : isPS g = false := by
          cases hips : isPS g with
          | false => rfl
          | true =>
            rcases honly g hg hips with hgg | hgg
            · rw [hgg] at h1
              exact absurd hgwid h1
            · rw [hgg] at h2
              exact absurd rfl h2
        simp [h1, h2, hnops]
  rw [List.countP_congr (fun x hx => by rw [hpointwise x hx])]
  exact gateway_countP_id_one hids hfind

/-- Witness for C9: enabling Stripe (id 2, disabled) while PayTabs
(id 1) is enabled disables PayTabs first, then toggles Stripe, leaving
exactly one of the pair enabled. -/
theorem performToggle_mutual_exclusion_witness :
    performToggle [⟨1, "PayTabs", true⟩, ⟨2, "Stripe", false⟩] 2 true =
      [ApiCall.update 1 false, ApiCall.toggle 2] ∧
    (applyCalls [⟨1, "PayTabs", true⟩, ⟨2, "Stripe", false⟩]
        (performToggle [⟨1, "PayTabs", true⟩, ⟨2, "Stripe", false⟩] 2 true)).countP
      (fun g => isPS g && g.enabled) = 1 :=
  performToggle_mutual_exclusion
    [⟨1, "PayTabs", true⟩, ⟨2, "Stripe", false⟩] 2
    ⟨2, "Stripe", false⟩ ⟨1, "PayTabs", true⟩
    (by decide) rfl (by decide) (by decide) (by decide) (by decide)
